import Mathlib

/-!
Verification of the keyz in-memory key-value store (server side).

The development shallowly embeds the Rust sources: Rust `String` values are
modelled as `List Char` (Lean `Char` is a Unicode scalar value, exactly Rust
`char`), byte buffers as `List Nat` with entries below 256, the concurrent
map as an association list operated on sequentially, and the wall clock as an
explicit `now` argument in whole seconds.  gzip (the external `flate2` crate)
is abstracted as a `Codec` parameter; theorems that need its documented
round-trip contract take it as a hypothesis.

The snapshot of the repository mixes revisions: `server/helpers.rs` and
`server/error.rs` are stale older files whose signatures no longer match
their callers in `server/init.rs`, `server/dispatcher.rs` and `config.rs`.
The framed `read_message` / `write_message` helpers and the `KeyzError`
taxonomy those callers use are therefore modelled from the specification;
the corresponding definitions are marked `Modelled from the spec:` in their
doc comments.  Everything else is translated from the Rust sources.
-/

namespace Keyz

/-! ## Rust character and string primitives, over `List Char` -/

/-- Rust `char::is_whitespace`: the Unicode White_Space property. -/
def rustIsWhitespace (c : Char) : Bool :=
  decide ((0x09 ≤ c.toNat ∧ c.toNat ≤ 0x0D) ∨ c.toNat = 0x20 ∨ c.toNat = 0x85 ∨
    c.toNat = 0xA0 ∨ c.toNat = 0x1680 ∨ (0x2000 ≤ c.toNat ∧ c.toNat ≤ 0x200A) ∨
    c.toNat = 0x2028 ∨ c.toNat = 0x2029 ∨ c.toNat = 0x202F ∨ c.toNat = 0x205F ∨
    c.toNat = 0x3000)

/-- Rust `str::trim_start`. -/
def rustTrimStart (s : List Char) : List Char := s.dropWhile rustIsWhitespace

/-- Rust `str::trim_end`. -/
def rustTrimEnd (s : List Char) : List Char :=
  (s.reverse.dropWhile rustIsWhitespace).reverse

/-- Rust `str::trim`. -/
def rustTrim (s : List Char) : List Char := rustTrimEnd (rustTrimStart s)

/-- Split a string at the first occurrence of `sep`, the separator excluded;
`none` when `sep` does not occur. -/
def splitFirst : List Char → Char → Option (List Char × List Char)
  | [], _ => none
  | c :: cs, sep =>
    if c = sep then some ([], cs)
    else (splitFirst cs sep).map (fun p => (c :: p.1, p.2))

/-- Rust `str::splitn(n, sep)` collected into a list (for `n ≥ 1`). -/
def splitnList : Nat → Char → List Char → List (List Char)
  | 0, _, _ => []
  | 1, _, s => [s]
  | n + 2, sep, s =>
    match splitFirst s sep with
    | none => [s]
    | some (a, b) => a :: splitnList (n + 1) sep b

/-- Rust `str::splitn(2, sep)` as the first part plus the optional rest. -/
def splitn2 (s : List Char) : List Char × Option (List Char) :=
  match splitFirst s ' ' with
  | none => (s, none)
  | some (a, b) => (a, some b)

/-- Auxiliary accumulator loop of `splitWhitespace`. -/
def splitWsAux : List Char → List Char → List (List Char)
  | [], cur => if cur = [] then [] else [cur.reverse]
  | c :: cs, cur =>
    if rustIsWhitespace c then
      if cur = [] then splitWsAux cs [] else cur.reverse :: splitWsAux cs []
    else splitWsAux cs (c :: cur)

/-- Rust `str::split_whitespace` collected into a list. -/
def splitWhitespace (s : List Char) : List (List Char) := splitWsAux s []

/-- Check that the first list is a prefix of the second. -/
def isPrefixList : List Char → List Char → Bool
  | [], _ => true
  | _ :: _, [] => false
  | p :: ps, q :: qs => p = q && isPrefixList ps qs

/-- Rust `str::rfind(pattern)`: index of the rightmost occurrence of `p` in
`s` (character positions; the patterns used by the dispatcher are ASCII, so
this coincides with Rust byte positions as far as slicing around the match is
concerned). -/
def rfindSub (s p : List Char) : Option Nat :=
  ((List.range (s.length + 1)).filter (fun i => isPrefixList p (s.drop i))).getLast?

/-- Numeric value of a digit run; `none` when empty or a non-digit occurs. -/
def digitsToNatAux : Nat → List Char → Option Nat
  | acc, [] => some acc
  | acc, c :: cs =>
    if 48 ≤ c.toNat ∧ c.toNat ≤ 57 then
      digitsToNatAux (acc * 10 + (c.toNat - 48)) cs
    else none

/-- Rust `u64::from_str`: an optional leading plus sign, then one or more
ASCII digits, rejecting values that overflow 64 bits. -/
def parseU64 (s : List Char) : Option Nat :=
  let body := match s with
    | '+' :: rest => rest
    | _ => s
  match body with
  | [] => none
  | _ =>
    match digitsToNatAux 0 body with
    | some n => if n < 2 ^ 64 then some n else none
    | none => none

/-- Decimal digit characters of a natural number, most significant first
(accumulator form). -/
def natToCharsAux (n : Nat) (acc : List Char) : List Char :=
  if n = 0 then acc
  else natToCharsAux (n / 10) (Char.ofNat (48 + n % 10) :: acc)
  decreasing_by exact Nat.div_lt_self (Nat.pos_of_ne_zero (by assumption)) (by omega)

/-- Rust `u64::to_string` / display of an unsigned integer. -/
def natToChars (n : Nat) : List Char :=
  if n = 0 then ['0'] else natToCharsAux n []

/-! ## UTF-8 encoding and decoding

Rust `String::into_bytes` is UTF-8 encoding; `String::from_utf8` decodes and
rejects ill-formed input (truncated sequences, overlong forms, surrogates,
code points above U+10FFFF), exactly as the checks below do. -/

/-- UTF-8 encoding of one Unicode scalar value. -/
def utf8EncodeChar (c : Char) : List Nat :=
  let n := c.toNat
  if n < 0x80 then [n]
  else if n < 0x800 then [0xC0 + n / 64, 0x80 + n % 64]
  else if n < 0x10000 then
    [0xE0 + n / 4096, 0x80 + n / 64 % 64, 0x80 + n % 64]
  else
    [0xF0 + n / 262144, 0x80 + n / 4096 % 64, 0x80 + n / 64 % 64, 0x80 + n % 64]

/-- UTF-8 encoding of a string (Rust `String::into_bytes`). -/
def utf8Encode : List Char → List Nat
  | [] => []
  | c :: cs => utf8EncodeChar c ++ utf8Encode cs

/-- Test for a UTF-8 continuation byte. -/
def isCont (b : Nat) : Bool := decide (0x80 ≤ b ∧ b < 0xC0)

/-- Decode one UTF-8 scalar value from the front of a buffer, returning it
with the remaining bytes; `none` on empty input or any ill-formed sequence
(truncation, stray continuation bytes, overlong forms, surrogates, values
above U+10FFFF). -/
def utf8DecodeOne : List Nat → Option (Char × List Nat)
  | [] => none
  | b :: rest =>
    if b < 0x80 then some (Char.ofNat b, rest)
    else if b < 0xC2 then none
    else if b < 0xE0 then
      match rest with
      | [] => none
      | b1 :: rest2 =>
        if isCont b1 then some (Char.ofNat ((b - 0xC0) * 64 + (b1 - 0x80)), rest2)
        else none
    else if b < 0xF0 then
      match rest with
      | b1 :: b2 :: rest2 =>
        if isCont b1 && isCont b2 then
          let n := (b - 0xE0) * 4096 + (b1 - 0x80) * 64 + (b2 - 0x80)
          if n < 0x800 then none
          else if 0xD800 ≤ n ∧ n < 0xE000 then none
          else some (Char.ofNat n, rest2)
        else none
      | _ => none
    else if b < 0xF5 then
      match rest with
      | b1 :: b2 :: b3 :: rest2 =>
        if isCont b1 && isCont b2 && isCont b3 then
          let n := (b - 0xF0) * 262144 + (b1 - 0x80) * 4096 +
            (b2 - 0x80) * 64 + (b3 - 0x80)
          if n < 0x10000 then none
          else if 0x110000 ≤ n then none
          else some (Char.ofNat n, rest2)
        else none
      | _ => none
    else none

/-- Fuelled decoding loop; the fuel only bounds the recursion depth. -/
def utf8DecodeFuel : Nat → List Nat → Option (List Char)
  | _, [] => some []
  | 0, _ :: _ => none
  | fuel + 1, b :: rest =>
    match utf8DecodeOne (b :: rest) with
    | some (c, rest2) => (utf8DecodeFuel fuel rest2).map (fun cs => c :: cs)
    | none => none

/-- UTF-8 decoding (Rust `String::from_utf8`), rejecting all ill-formed byte
sequences.  One byte of input always buys at least one byte of progress, so
`l.length` is enough fuel. -/
def utf8Decode (l : List Nat) : Option (List Char) := utf8DecodeFuel l.length l

/-- Rebuilding a character from its scalar value is the identity. -/
theorem char_ofNat_toNat (c : Char) : Char.ofNat c.toNat = c := by
  unfold Char.ofNat
  split
  case isTrue h =>
    unfold Char.ofNatAux
    apply Char.eq_of_val_eq
    apply UInt32.eq_of_toBitVec_eq
    apply BitVec.eq_of_toNat_eq
    simp [Char.toNat, UInt32.toNat]
  case isFalse h => exact absurd c.valid h

/-- Scalar values of characters are valid code points. -/
theorem char_toNat_valid (c : Char) :
    c.toNat < 0xD800 ∨ (0xE000 ≤ c.toNat ∧ c.toNat < 0x110000) := by
  have h : c.toNat.isValidChar := c.valid
  rcases h with h | ⟨h1, h2⟩
  · exact Or.inl h
  · exact Or.inr ⟨by omega, h2⟩

/-- Successful single-character decoding consumes at least one byte. -/
theorem utf8DecodeOne_length (l : List Nat) (c : Char) (r : List Nat)
    (h : utf8DecodeOne l = some (c, r)) : r.length < l.length := by
  cases l with
  | nil => simp [utf8DecodeOne] at h
  | cons b rest =>
    unfold utf8DecodeOne at h
    repeat' split at h
    all_goals simp_all
    all_goals omega

/-- The fuelled decoder ignores the exact fuel once it covers the input. -/
theorem utf8DecodeFuel_irrel (f1 : Nat) : ∀ (f2 : Nat) (l : List Nat),
    l.length ≤ f1 → l.length ≤ f2 → utf8DecodeFuel f1 l = utf8DecodeFuel f2 l := by
  induction f1 with
  | zero =>
    intro f2 l h1 h2
    cases l with
    | nil => cases f2 <;> rfl
    | cons b r => simp at h1
  | succ f ih =>
    intro f2 l h1 h2
    cases l with
    | nil => cases f2 <;> rfl
    | cons b rest =>
      cases f2 with
      | zero => simp at h2
      | succ f2a =>
        show (match utf8DecodeOne (b :: rest) with
          | some (c, rest2) => (utf8DecodeFuel f rest2).map (fun cs => c :: cs)
          | none => none) = (match utf8DecodeOne (b :: rest) with
          | some (c, rest2) => (utf8DecodeFuel f2a rest2).map (fun cs => c :: cs)
          | none => none)
        cases hd : utf8DecodeOne (b :: rest) with
        | none => rfl
        | some p =>
          obtain ⟨c, r⟩ := p
          have hl := utf8DecodeOne_length _ _ _ hd
          simp only [List.length_cons] at h1 h2 hl
          show (utf8DecodeFuel f r).map (fun cs => c :: cs) =
            (utf8DecodeFuel f2a r).map (fun cs => c :: cs)
          rw [ih f2a r (by omega) (by omega)]

/-- Unfolding equation for the decoder on a non-empty buffer. -/
theorem utf8Decode_cons (b : Nat) (rest : List Nat) :
    utf8Decode (b :: rest) =
      match utf8DecodeOne (b :: rest) with
      | some (c, rest2) => (utf8Decode rest2).map (fun cs => c :: cs)
      | none => none := by
  show utf8DecodeFuel (b :: rest).length (b :: rest) = _
  rw [List.length_cons]
  show (match utf8DecodeOne (b :: rest) with
    | some (c, rest2) => (utf8DecodeFuel rest.length rest2).map (fun cs => c :: cs)
    | none => none) = _
  cases hd : utf8DecodeOne (b :: rest) with
  | none => rfl
  | some p =>
    obtain ⟨c, r⟩ := p
    have hl := utf8DecodeOne_length _ _ _ hd
    simp only [List.length_cons] at hl
    show (utf8DecodeFuel rest.length r).map _ = (utf8Decode r).map _
    rw [utf8DecodeFuel_irrel rest.length r.length r (by omega) le_rfl]
    rfl

/-- Decoding after a successful head decode peels off that character. -/
theorem utf8Decode_of_decodeOne (l : List Nat) (c : Char) (r : List Nat)
    (h : utf8DecodeOne l = some (c, r)) :
    utf8Decode l = (utf8Decode r).map (fun cs => c :: cs) := by
  cases l with
  | nil => simp [utf8DecodeOne] at h
  | cons b rest => rw [utf8Decode_cons, h]

/-- Shape of a successful one-byte head decode. -/
theorem utf8DecodeOne_one (b : Nat) (tail : List Nat) (h : b < 0x80) :
    utf8DecodeOne (b :: tail) = some (Char.ofNat b, tail) := by
  simp only [utf8DecodeOne, if_pos h]

/-- Shape of a successful two-byte head decode. -/
theorem utf8DecodeOne_two (b b1 : Nat) (tail : List Nat)
    (h1 : 0xC2 ≤ b) (h2 : b < 0xE0) (h3 : isCont b1 = true) :
    utf8DecodeOne (b :: b1 :: tail) =
      some (Char.ofNat ((b - 0xC0) * 64 + (b1 - 0x80)), tail) := by
  simp only [utf8DecodeOne]
  rw [if_neg (by omega), if_neg (by omega), if_pos h2, if_pos h3]

/-- Shape of a successful three-byte head decode. -/
theorem utf8DecodeOne_three (b b1 b2 : Nat) (tail : List Nat)
    (h1 : 0xE0 ≤ b) (h2 : b < 0xF0) (h3 : isCont b1 = true) (h4 : isCont b2 = true)
    (h5 : ¬ (b - 0xE0) * 4096 + (b1 - 0x80) * 64 + (b2 - 0x80) < 0x800)
    (h6 : ¬ (0xD800 ≤ (b - 0xE0) * 4096 + (b1 - 0x80) * 64 + (b2 - 0x80) ∧
        (b - 0xE0) * 4096 + (b1 - 0x80) * 64 + (b2 - 0x80) < 0xE000)) :
    utf8DecodeOne (b :: b1 :: b2 :: tail) =
      some (Char.ofNat ((b - 0xE0) * 4096 + (b1 - 0x80) * 64 + (b2 - 0x80)), tail) := by
  simp only [utf8DecodeOne]
  rw [if_neg (by omega), if_neg (by omega), if_neg (by omega), if_pos h2,
    if_pos (by rw [h3, h4]; rfl)]
  rw [if_neg h5, if_neg h6]

/-- Shape of a successful four-byte head decode. -/
theorem utf8DecodeOne_four (b b1 b2 b3 : Nat) (tail : List Nat)
    (h1 : 0xF0 ≤ b) (h2 : b < 0xF5) (h3 : isCont b1 = true) (h4 : isCont b2 = true)
    (h5 : isCont b3 = true)
    (h6 : ¬ (b - 0xF0) * 262144 + (b1 - 0x80) * 4096 + (b2 - 0x80) * 64 + (b3 - 0x80) <
        0x10000)
    (h7 : ¬ 0x110000 ≤
        (b - 0xF0) * 262144 + (b1 - 0x80) * 4096 + (b2 - 0x80) * 64 + (b3 - 0x80)) :
    utf8DecodeOne (b :: b1 :: b2 :: b3 :: tail) =
      some (Char.ofNat
        ((b - 0xF0) * 262144 + (b1 - 0x80) * 4096 + (b2 - 0x80) * 64 + (b3 - 0x80)),
        tail) := by
  simp only [utf8DecodeOne]
  rw [if_neg (by omega), if_neg (by omega), if_neg (by omega), if_neg (by omega),
    if_pos h2, if_pos (by rw [h3, h4, h5]; rfl)]
  rw [if_neg h6, if_neg h7]

/-- Head decoding of an encoded character returns exactly that character. -/
theorem utf8DecodeOne_encodeChar (c : Char) (tail : List Nat) :
    utf8DecodeOne (utf8EncodeChar c ++ tail) = some (c, tail) := by
  have hv := char_toNat_valid c
  unfold utf8EncodeChar
  by_cases ha : c.toNat < 0x80
  · simp only [if_pos ha, List.cons_append, List.nil_append]
    rw [utf8DecodeOne_one _ _ ha, char_ofNat_toNat]
  · by_cases hb : c.toNat < 0x800
    · simp only [if_neg ha, if_pos hb, List.cons_append, List.nil_append]
      rw [utf8DecodeOne_two _ _ _ (by omega) (by omega)
        (by simp [isCont]; omega)]
      rw [show (0xC0 + c.toNat / 64 - 0xC0) * 64 + (0x80 + c.toNat % 64 - 0x80) =
        c.toNat by omega, char_ofNat_toNat]
    · by_cases hc : c.toNat < 0x10000
      · simp only [if_neg ha, if_neg hb, if_pos hc, List.cons_append, List.nil_append]
        have hval : (0xE0 + c.toNat / 4096 - 0xE0) * 4096 +
            (0x80 + c.toNat / 64 % 64 - 0x80) * 64 + (0x80 + c.toNat % 64 - 0x80) =
            c.toNat := by omega
        rw [utf8DecodeOne_three _ _ _ _ (by omega) (by omega)
          (by simp [isCont]; omega) (by simp [isCont]; omega)
          (by rw [hval]; omega) (by rw [hval]; omega)]
        rw [hval, char_ofNat_toNat]
      · simp only [if_neg ha, if_neg hb, if_neg hc, List.cons_append, List.nil_append]
        have hlt : c.toNat < 0x110000 := by omega
        have hval : (0xF0 + c.toNat / 262144 - 0xF0) * 262144 +
            (0x80 + c.toNat / 4096 % 64 - 0x80) * 4096 +
            (0x80 + c.toNat / 64 % 64 - 0x80) * 64 + (0x80 + c.toNat % 64 - 0x80) =
            c.toNat := by omega
        rw [utf8DecodeOne_four _ _ _ _ _ (by omega) (by omega)
          (by simp [isCont]; omega) (by simp [isCont]; omega) (by simp [isCont]; omega)
          (by rw [hval]; omega) (by rw [hval]; omega)]
        rw [hval, char_ofNat_toNat]

/-- Decoding an encoded character at the head of a buffer peels it off. -/
theorem utf8Decode_encodeChar_append (c : Char) (tail : List Nat) :
    utf8Decode (utf8EncodeChar c ++ tail) =
      (utf8Decode tail).map (fun cs => c :: cs) :=
  utf8Decode_of_decodeOne _ _ _ (utf8DecodeOne_encodeChar c tail)

/-- UTF-8 decoding inverts UTF-8 encoding. -/
theorem utf8Decode_utf8Encode (s : List Char) : utf8Decode (utf8Encode s) = some s := by
  induction s with
  | nil => rfl
  | cons c cs ih =>
    show utf8Decode (utf8EncodeChar c ++ utf8Encode cs) = _
    rw [utf8Decode_encodeChar_append, ih]
    rfl

/-- Character encodings are never empty. -/
theorem utf8EncodeChar_ne_nil (c : Char) : utf8EncodeChar c ≠ [] := by
  by_cases ha : c.toNat < 0x80
  · simp [utf8EncodeChar, ha]
  · by_cases hb : c.toNat < 0x800
    · simp [utf8EncodeChar, ha, hb]
    · by_cases hc : c.toNat < 0x10000
      · simp [utf8EncodeChar, ha, hb, hc]
      · simp [utf8EncodeChar, ha, hb, hc]

/-- The encoding of a non-empty string is non-empty. -/
theorem utf8Encode_ne_nil (s : List Char) (h : s ≠ []) : utf8Encode s ≠ [] := by
  cases s with
  | nil => exact absurd rfl h
  | cons c cs =>
    show utf8EncodeChar c ++ utf8Encode cs ≠ []
    simp [utf8EncodeChar_ne_nil c]

/-- Only the empty buffer decodes to the empty string. -/
theorem utf8Decode_some_nil (l : List Nat) (h : utf8Decode l = some []) : l = [] := by
  cases l with
  | nil => rfl
  | cons b rest =>
    exfalso
    rw [utf8Decode_cons] at h
    cases hd : utf8DecodeOne (b :: rest) with
    | none => rw [hd] at h; simp at h
    | some p => rw [hd] at h; simp at h

/-! ## Error taxonomy

Modelled from the spec: `server/error.rs` in this snapshot is a stale file
without the `KeyzError` enum that `init.rs`, `dispatcher.rs`, `store.rs` and
`config.rs` import, so the closed error set is taken from the specification
(§7): `Io`, `ClientDisconnected`, `ClientTimeout`, `InvalidCommand(detail)`,
`InvalidUtf8`, `Time`, plus the configuration-loader kinds. -/

/-- Closed set of internal error kinds. -/
inductive KeyzError where
  | ioErr : KeyzError
  | clientDisconnected : KeyzError
  | clientTimeout : KeyzError
  | invalidCommand : String → KeyzError
  | invalidUtf8 : KeyzError
  | timeErr : KeyzError
  | invalidConfig : String → KeyzError
  | invalidSocketAddress : KeyzError
  | configIo : KeyzError
  | configParse : KeyzError
  deriving DecidableEq, Repr

/-- Decidable equality for `Except`, used to evaluate witnesses. -/
instance exceptDecEq {e a : Type} [DecidableEq e] [DecidableEq a] :
    DecidableEq (Except e a) := fun x y =>
  match x, y with
  | Except.ok u, Except.ok v =>
    if h : u = v then isTrue (by rw [h])
    else isFalse (by intro hh; cases hh; exact h rfl)
  | Except.error u, Except.error v =>
    if h : u = v then isTrue (by rw [h])
    else isFalse (by intro hh; cases hh; exact h rfl)
  | Except.ok _, Except.error _ => isFalse (by intro hh; cases hh)
  | Except.error _, Except.ok _ => isFalse (by intro hh; cases hh)

/-! ## The store (`server/store.rs`)

The `Store` struct carries the `DashMap` (modelled as an association list
with unique keys operated on sequentially) and its immutable configuration.
The `started_at` instant is external wall-clock state; `stats` takes the
elapsed time as an explicit argument.  The gzip codec of the `flate2` crate
is an external collaborator and is abstracted as a `Codec`. -/

/-- Abstraction of the gzip encoder/decoder pair provided by `flate2`. -/
structure Codec where
  compress : List Nat → List Nat
  decompress : List Nat → List Nat

/-- The identity codec, used to instantiate witnesses. -/
def idCodec : Codec := ⟨fun v => v, fun v => v⟩

/-- One stored value (`ValueEntry` in `store.rs`). -/
structure ValueEntry where
  payload : List Nat
  expires_at : Option Nat
  compressed : Bool
  deriving DecidableEq, Repr

/-- The store: map contents plus immutable configuration
(`compression_threshold`, `default_ttl`, `cleanup_interval_ms`). -/
structure Store where
  data : List (List Char × ValueEntry)
  compression_threshold : Nat
  default_ttl : Option Nat
  cleanup_interval_ms : Nat
  deriving DecidableEq, Repr

/-- Association-list lookup (`DashMap::get`). -/
def mlookup : List (List Char × ValueEntry) → List Char → Option ValueEntry
  | [], _ => none
  | kv :: rest, key => if kv.1 = key then some kv.2 else mlookup rest key

/-- Association-list removal (`DashMap::remove`). -/
def mremove (m : List (List Char × ValueEntry)) (key : List Char) :
    List (List Char × ValueEntry) :=
  m.filter (fun kv => decide (kv.1 ≠ key))

/-- Association-list insertion/replacement (`DashMap::insert`). -/
def minsert (m : List (List Char × ValueEntry)) (key : List Char) (v : ValueEntry) :
    List (List Char × ValueEntry) :=
  mremove m key ++ [(key, v)]

/-- The `ValueEntry::is_expired` check: `now ≥ expiry`. -/
def ValueEntry.is_expired (e : ValueEntry) (now : Nat) : Bool :=
  match e.expires_at with
  | some expiry => decide (expiry ≤ now)
  | none => false

/-- The `compress_if_needed` helper of `store.rs`: skip compression below the
threshold, and keep the compressed form only when strictly shorter. -/
def compress_if_needed (c : Codec) (value : List Nat) (threshold : Nat) :
    List Nat × Bool :=
  if value.length < threshold then (value, false)
  else
    let compressed := c.compress value
    if compressed.length < value.length then (compressed, true) else (value, false)

/-- The `decompress_if_needed` helper of `store.rs`. -/
def decompress_if_needed (c : Codec) (value : List Nat) (compressed : Bool) :
    List Nat :=
  if !compressed then value else c.decompress value

/-- The `Store::ttl_deadline` helper: zero seconds selects the default TTL
(or no expiry when none is configured); the deadline is the u64 sum
`current_epoch_seconds()? + ttl`, a bare addition in the source that wraps
modulo 2^64 in release builds (it panics in debug builds; the model follows
the release semantics), and `ttl` is reachable from the wire as any
`u64`-parsable `EX` argument. -/
def Store.ttl_deadline (st : Store) (now : Nat) (seconds : Nat) : Option Nat :=
  let ttl := if seconds = 0 then st.default_ttl.getD 0 else seconds
  if ttl = 0 then none else some ((now + ttl) % 2 ^ 64)

/-- The `Store::insert` operation. -/
def Store.insert (c : Codec) (st : Store) (now : Nat) (key : List Char)
    (value : List Nat) (seconds : Nat) : Store :=
  let expires_at := st.ttl_deadline now seconds
  let pc := compress_if_needed c value st.compression_threshold
  { st with data := minsert st.data key ⟨pc.1, expires_at, pc.2⟩ }

/-- The `Store::get` operation: expired entries are removed and reported
absent; live payloads are decompressed. -/
def Store.get (c : Codec) (st : Store) (now : Nat) (key : List Char) :
    Option (List Nat) × Store :=
  match mlookup st.data key with
  | some entry =>
    if entry.is_expired now then (none, { st with data := mremove st.data key })
    else (some (decompress_if_needed c entry.payload entry.compressed), st)
  | none => (none, st)

/-- The `Store::delete` operation: an expired entry is removed but reported
absent; a live entry is removed and its key echoed back. -/
def Store.delete (st : Store) (now : Nat) (key : List Char) :
    Option (List Char) × Store :=
  match mlookup st.data key with
  | some entry =>
    if entry.is_expired now then (none, { st with data := mremove st.data key })
    else (some key, { st with data := mremove st.data key })
  | none => (none, st)

/-- The `Store::expires_in` operation. -/
def Store.expires_in (st : Store) (now : Nat) (key : List Char) :
    Option Nat × Store :=
  match mlookup st.data key with
  | some entry =>
    match entry.expires_at with
    | some expiry =>
      if now < expiry then (some (expiry - now), st)
      else (none, { st with data := mremove st.data key })
    | none => (none, st)
  | none => (none, st)

/-- The `Store::len` operation (`DashMap::len`). -/
def Store.len (st : Store) : Nat := st.data.length

/-- The `StoreStats` snapshot returned by `Store::stats`; `uptime_secs` is
the elapsed `f64` duration, modelled as a rational. -/
structure StoreStats where
  keys : Nat
  compressed_keys : Nat
  compression_threshold : Nat
  default_ttl_secs : Option Nat
  cleanup_interval_ms : Nat
  uptime_secs : Rat
  deriving DecidableEq, Repr

/-- The `Store::stats` operation; `uptime` is the elapsed time since store
creation, supplied by the monotonic clock. -/
def Store.stats (st : Store) (uptime : Rat) : StoreStats :=
  { keys := st.data.length
    compressed_keys := (st.data.filter (fun kv => kv.2.compressed)).length
    compression_threshold := st.compression_threshold
    default_ttl_secs := st.default_ttl
    cleanup_interval_ms := st.cleanup_interval_ms
    uptime_secs := uptime }

/-- The `purge_expired` pass run by the background cleaner. -/
def purge_expired (st : Store) (now : Nat) : Store :=
  { st with data := st.data.filter (fun kv => !kv.2.is_expired now) }

/-! ## Protocol configuration (`config.rs`) -/

/-- The immutable protocol configuration consumed by the connection handler
and by INFO. -/
structure ProtocolConfig where
  max_message_bytes : Nat
  idle_timeout_secs : Nat
  close_command : List Char
  timeout_response : List Char
  invalid_command_response : List Char
  deriving DecidableEq, Repr

/-- The `ProtocolConfig::validate` check of `config.rs`: positive numeric
limits and non-blank response strings. -/
def ProtocolConfig.validate (p : ProtocolConfig) : Bool :=
  decide (p.max_message_bytes ≠ 0) && decide (p.idle_timeout_secs ≠ 0) &&
  decide (rustTrim p.close_command ≠ []) &&
  decide (rustTrim p.timeout_response ≠ []) &&
  decide (rustTrim p.invalid_command_response ≠ [])

/-- The clock inputs of one request: epoch seconds for expiry, elapsed time
since store creation for stats, and the serializer rendering of that elapsed
`f64` (the exact decimal form produced by the float formatter is outside the
model, so it is carried as an opaque string). -/
structure Clock where
  now : Nat
  uptime : Rat
  uptimeRepr : List Char

/-! ## Commands (`server/commands.rs`) -/

/-- The `commands::set` handler: stores the UTF-8 bytes of the value and
answers `ok`. -/
def cmd_set (c : Codec) (key : List Char) (value : List Char) (st : Store)
    (now : Nat) (seconds : Nat) : Store × Except KeyzError (List Char) :=
  (Store.insert c st now key (utf8Encode value) seconds, Except.ok ("ok".data))

/-- The `commands::get` handler: absent keys answer `null`; present payloads
are decoded as UTF-8 (`String::from_utf8`). -/
def cmd_get (c : Codec) (key : List Char) (st : Store) (now : Nat) :
    Store × Except KeyzError (List Char) :=
  match Store.get c st now key with
  | (some value, st2) =>
    match utf8Decode value with
    | some s => (st2, Except.ok s)
    | none => (st2, Except.error KeyzError.invalidUtf8)
  | (none, st2) => (st2, Except.ok ("null".data))

/-- The `commands::delete` handler. -/
def cmd_delete (key : List Char) (st : Store) (now : Nat) :
    Store × Except KeyzError (List Char) :=
  match Store.delete st now key with
  | (some k, st2) => (st2, Except.ok k)
  | (none, st2) => (st2, Except.ok ("null".data))

/-- The `commands::expires_in` handler. -/
def cmd_expires_in (key : List Char) (st : Store) (now : Nat) :
    Store × Except KeyzError (List Char) :=
  match Store.expires_in st now key with
  | (some v, st2) => (st2, Except.ok (natToChars v))
  | (none, st2) => (st2, Except.ok ("null".data))

/-- Lower-case hexadecimal digit, as used by the JSON string escaper. -/
def hexDigitChar (n : Nat) : Char :=
  if n < 10 then Char.ofNat (48 + n) else Char.ofNat (87 + n)

/-- JSON escaping of one character (serde_json rules: quote, backslash and
control characters are escaped, everything else passes through). -/
def jsonEscapeChar (ch : Char) : List Char :=
  if ch = '"' then ['\\', '"']
  else if ch = '\\' then ['\\', '\\']
  else if ch = Char.ofNat 8 then ['\\', 'b']
  else if ch = Char.ofNat 9 then ['\\', 't']
  else if ch = Char.ofNat 10 then ['\\', 'n']
  else if ch = Char.ofNat 12 then ['\\', 'f']
  else if ch = Char.ofNat 13 then ['\\', 'r']
  else if ch.toNat < 0x20 then
    ['\\', 'u', '0', '0', hexDigitChar (ch.toNat / 16), hexDigitChar (ch.toNat % 16)]
  else [ch]

/-- A JSON string literal. -/
def jsonString (s : List Char) : List Char :=
  '"' :: (s.map jsonEscapeChar).flatten ++ ['"']

/-- JSON rendering of an optional integer (`null` when absent). -/
def optNatJson : Option Nat → List Char
  | none => "null".data
  | some n => natToChars n

/-- The `commands::info` handler: the `serde_json` object with the store
stats and the protocol configuration.  Keys appear in sorted order, as
the default BTreeMap of serde_json emits them; the decimal rendering of the
`uptime_secs` float is the opaque `Clock.uptimeRepr`. -/
def cmd_info (st : Store) (p : ProtocolConfig) (clk : Clock) : List Char :=
  let s := Store.stats st clk.uptime
  ("\x7b\"protocol\":\x7b\"close_command\":").data ++ jsonString p.close_command ++
  (",\"idle_timeout_secs\":").data ++ natToChars p.idle_timeout_secs ++
  (",\"invalid_command_response\":").data ++ jsonString p.invalid_command_response ++
  (",\"max_message_bytes\":").data ++ natToChars p.max_message_bytes ++
  (",\"timeout_response\":").data ++ jsonString p.timeout_response ++
  ("\x7d,\"store\":\x7b\"cleanup_interval_ms\":").data ++
    natToChars s.cleanup_interval_ms ++
  (",\"compressed_keys\":").data ++ natToChars s.compressed_keys ++
  (",\"compression_threshold\":").data ++ natToChars s.compression_threshold ++
  (",\"default_ttl_secs\":").data ++ optNatJson s.default_ttl_secs ++
  (",\"keys\":").data ++ natToChars s.keys ++
  (",\"uptime_secs\":").data ++ clk.uptimeRepr ++ ("\x7d\x7d").data

/-! ## Dispatcher (`server/dispatcher.rs`) -/

/-- The `parse_set_command` function: split off `SET` and the key at the
first two spaces, trim the remainder, then look for the rightmost `" EX "`;
a single-token numeric tail sets the TTL and shortens the value, any other
multi-token tail leaves the whole remainder as the value with TTL zero. -/
def parse_set_command (input : List Char) :
    Except KeyzError (List Char × List Char × Nat) :=
  match splitnList 3 ' ' input with
  | [] => Except.error (KeyzError.invalidCommand ("error:set command invalid"))
  | cmd :: rest =>
    if cmd ≠ ("SET").data then
      Except.error (KeyzError.invalidCommand ("error:set command invalid"))
    else
      match rest with
      | [] => Except.error (KeyzError.invalidCommand ("error:set command invalid"))
      | key :: rest2 =>
        if key = [] then
          Except.error (KeyzError.invalidCommand ("error:set command invalid"))
        else
          match rest2 with
          | [] => Except.error (KeyzError.invalidCommand ("error:set command invalid"))
          | rem :: _ =>
            let remainder := rustTrim rem
            if remainder = [] then
              Except.error (KeyzError.invalidCommand ("error:set command invalid"))
            else
              match rfindSub remainder ((" EX ").data) with
              | none => Except.ok (key, remainder, 0)
              | some idx =>
                let ttl_fragment := rustTrim (remainder.drop (idx + 4))
                if ttl_fragment = [] then
                  Except.error (KeyzError.invalidCommand ("error:set command invalid"))
                else
                  match splitWhitespace ttl_fragment with
                  | [t] =>
                    match parseU64 t with
                    | some parsed_seconds =>
                      let candidate_value := rustTrimEnd (remainder.take idx)
                      if candidate_value = [] then
                        Except.error
                          (KeyzError.invalidCommand ("error:set command invalid"))
                      else Except.ok (key, candidate_value, parsed_seconds)
                    | none =>
                      Except.error
                        (KeyzError.invalidCommand ("error:set command invalid"))
                  | [] =>
                    Except.error (KeyzError.invalidCommand ("error:set command invalid"))
                  | _ => Except.ok (key, remainder, 0)

/-- The `dispatcher` function: trim, split off the command name at the first
space, and dispatch on the (case-sensitive) name; unknown names and malformed
arguments answer the literal `error:invalid command`. -/
def dispatcher (c : Codec) (command : List Char) (st : Store) (p : ProtocolConfig)
    (clk : Clock) : Store × Except KeyzError (List Char) :=
  let trimmed := rustTrim command
  if trimmed = [] then (st, Except.ok (("error:invalid command").data))
  else
    let parts := splitn2 trimmed
    let command_name := parts.1
    let remainder := parts.2
    if command_name = ("INFO").data then
      match remainder with
      | some extra =>
        if rustTrim extra ≠ [] then (st, Except.ok (("error:invalid command").data))
        else (st, Except.ok (cmd_info st p clk))
      | none => (st, Except.ok (cmd_info st p clk))
    else if command_name = ("SET").data then
      match parse_set_command trimmed with
      | Except.ok kvs => cmd_set c kvs.1 kvs.2.1 st clk.now kvs.2.2
      | Except.error _ => (st, Except.ok (("error:set command invalid").data))
    else if command_name = ("GET").data ∨ command_name = ("DEL").data ∨
        command_name = ("EXIN").data then
      match remainder with
      | some raw =>
        let key_trimmed := rustTrim raw
        if key_trimmed = [] ∨ 2 ≤ (splitWhitespace key_trimmed).length then
          (st, Except.ok (("error:invalid command").data))
        else if command_name = ("GET").data then cmd_get c key_trimmed st clk.now
        else if command_name = ("DEL").data then cmd_delete key_trimmed st clk.now
        else cmd_expires_in key_trimmed st clk.now
      | none => (st, Except.ok (("error:invalid command").data))
    else (st, Except.ok (("error:invalid command").data))

/-! ## Framing I/O

Modelled from the spec: the framed `read_message` / `write_message` pair
called by `handle_connection` is absent from this snapshot of
`server/helpers.rs` (the file holds an older unframed revision whose
signature no longer matches the caller), so the reader and writer follow
§4.3 of the specification: 4-byte big-endian length, bounds check against
`max_len`, UTF-8 payload, and mapping of connection-reset / EOF /
broken-pipe to `ClientDisconnected` with all other I/O errors kept as
`Io`. -/

/-- What the underlying byte stream reports once its buffered bytes run out
(or the sink stops accepting bytes). -/
inductive ReadEnd where
  | eof : ReadEnd
  | connReset : ReadEnd
  | brokenPipe : ReadEnd
  | otherIo : ReadEnd
  deriving DecidableEq, Repr

/-- Modelled from the spec: the error mapping of §4.3 — connection-reset,
EOF and broken-pipe become `ClientDisconnected`; other I/O errors propagate
as `Io`. -/
def mapReadErr : ReadEnd → KeyzError
  | ReadEnd.eof => KeyzError.clientDisconnected
  | ReadEnd.connReset => KeyzError.clientDisconnected
  | ReadEnd.brokenPipe => KeyzError.clientDisconnected
  | ReadEnd.otherIo => KeyzError.ioErr

/-- A readable stream: the bytes still buffered, then the condition the next
read past them would report. -/
structure ByteStream where
  bytes : List Nat
  ending : ReadEnd
  deriving DecidableEq, Repr

/-- Modelled from the spec: `read_exact` — deliver exactly `n` bytes or fail
with the mapped stream condition. -/
def readExact (s : ByteStream) (n : Nat) :
    Except KeyzError (List Nat × ByteStream) :=
  if n ≤ s.bytes.length then
    Except.ok (s.bytes.take n, ⟨s.bytes.drop n, s.ending⟩)
  else Except.error (mapReadErr s.ending)

/-- Big-endian decoding of a byte list. -/
def beDecode (bs : List Nat) : Nat := bs.foldl (fun acc b => acc * 256 + b) 0

/-- The four big-endian bytes of `n` (truncated to 32 bits, as `as u32`
casting does). -/
def beBytes (n : Nat) : List Nat :=
  [n / 2 ^ 24 % 256, n / 2 ^ 16 % 256, n / 2 ^ 8 % 256, n % 256]

/-- Modelled from the spec: `read_message(stream, max_len)` of §4.3 — read
exactly 4 bytes, decode the big-endian length `L`, fail with
`InvalidCommand("message length out of bounds")` when `L == 0` or
`L > max_len`, then read exactly `L` payload bytes and decode them as
UTF-8. -/
def read_message (s : ByteStream) (max_len : Nat) :
    Except KeyzError (List Char × ByteStream) :=
  match readExact s 4 with
  | Except.error e => Except.error e
  | Except.ok (hdr, s1) =>
    let len := beDecode hdr
    if len = 0 ∨ max_len < len then
      Except.error (KeyzError.invalidCommand ("message length out of bounds"))
    else
      match readExact s1 len with
      | Except.error e => Except.error e
      | Except.ok (payload, s2) =>
        match utf8Decode payload with
        | some chars => Except.ok (chars, s2)
        | none => Except.error KeyzError.invalidUtf8

/-- A writable sink: remaining capacity before the underlying stream fails,
the condition it then reports, and the bytes accepted so far. -/
structure WriteSink where
  room : Nat
  ending : ReadEnd
  written : List Nat
  deriving DecidableEq, Repr

/-- Modelled from the spec: `write_all` with the §4.3 error mapping. -/
def writeAll (w : WriteSink) (bs : List Nat) : Except KeyzError WriteSink :=
  if bs.length ≤ w.room then
    Except.ok ⟨w.room - bs.length, w.ending, w.written ++ bs⟩
  else Except.error (mapReadErr w.ending)

/-- Modelled from the spec: `write_message(stream, message)` of §4.3 — write
the 4-byte big-endian `message.len()` then the message bytes, with the same
error mapping as reads. -/
def write_message (w : WriteSink) (message : List Nat) :
    Except KeyzError WriteSink :=
  writeAll w (beBytes message.length ++ message)

/-! ## Connection handler (`server/init.rs`) -/

/-- Result of the framed read racing the idle timeout, as seen by the loop
body of `handle_connection`. -/
inductive ReadOutcome where
  | okRead : List Char → ReadOutcome
  | errRead : KeyzError → ReadOutcome
  | timedOut : ReadOutcome

/-- What one iteration of the `handle_connection` loop does: reply and keep
looping, reply `Closing connection` and shut down, best-effort write the
timeout response and close, or terminate without writing. -/
inductive StepResult where
  | reply : List Char → Store → StepResult
  | closing : List Char → StepResult
  | timeoutClose : List Char → StepResult
  | terminate : KeyzError → Store → StepResult
  deriving DecidableEq, Repr

/-- One iteration of the `handle_connection` loop of `init.rs`: error
mapping of the read, the empty-after-trim check, the close command, then the
dispatcher with `invalid_command_response` substituted for dispatcher
`InvalidCommand` errors. -/
def handler_step (c : Codec) (p : ProtocolConfig) (st : Store) (clk : Clock)
    (r : ReadOutcome) : StepResult :=
  match r with
  | ReadOutcome.timedOut => StepResult.timeoutClose p.timeout_response
  | ReadOutcome.errRead KeyzError.clientDisconnected =>
    StepResult.terminate KeyzError.clientDisconnected st
  | ReadOutcome.errRead (KeyzError.invalidCommand _) =>
    StepResult.reply p.invalid_command_response st
  | ReadOutcome.errRead e => StepResult.terminate e st
  | ReadOutcome.okRead command =>
    if rustTrim command = [] then StepResult.reply p.invalid_command_response st
    else if command = p.close_command then
      StepResult.closing (("Closing connection").data)
    else
      match dispatcher c command st p clk with
      | (st2, Except.ok resp) => StepResult.reply resp st2
      | (st2, Except.error (KeyzError.invalidCommand _)) =>
        StepResult.reply p.invalid_command_response st2
      | (st2, Except.error e) => StepResult.terminate e st2

/-! ## Supporting lemmas -/

/-- Lookup after removal: the removed key is gone, others are untouched. -/
theorem mlookup_mremove (m : List (List Char × ValueEntry)) (k k2 : List Char) :
    mlookup (mremove m k) k2 = if k2 = k then none else mlookup m k2 := by
  induction m with
  | nil => simp [mremove, mlookup]
  | cons kv rest ih =>
    by_cases hkv : kv.1 = k
    · rw [show mremove (kv :: rest) k = mremove rest k by
        simp [mremove, List.filter, hkv]]
      rw [ih]
      by_cases hk2 : k2 = k
      · simp [hk2]
      · simp [hk2, mlookup, show ¬ kv.1 = k2 by rw [hkv]; exact fun hh => hk2 hh.symm]
    · rw [show mremove (kv :: rest) k = kv :: mremove rest k by
        simp [mremove, List.filter, hkv]]
      by_cases hk2 : kv.1 = k2
      · simp [mlookup, hk2, show ¬ k2 = k by rw [← hk2]; exact fun hh => hkv hh]
      · simp [mlookup, hk2, ih]

/-- Lookup after insertion: the inserted key maps to the new value, others
are untouched. -/
theorem mlookup_minsert (m : List (List Char × ValueEntry)) (k : List Char)
    (v : ValueEntry) (k2 : List Char) :
    mlookup (minsert m k v) k2 = if k2 = k then some v else mlookup m k2 := by
  unfold minsert
  have happ : ∀ (a b : List (List Char × ValueEntry)) (key : List Char),
      mlookup (a ++ b) key =
        match mlookup a key with
        | some v => some v
        | none => mlookup b key := by
    intro a b key
    induction a with
    | nil => simp [mlookup]
    | cons kv rest ih =>
      by_cases hkv : kv.1 = key
      · simp [mlookup, hkv]
      · simp [mlookup, hkv, ih]
  rw [happ, mlookup_mremove]
  by_cases hk2 : k2 = k
  · simp [hk2, mlookup]
  · rw [if_neg hk2, if_neg hk2]
    cases hm : mlookup m k2 <;>
      simp [mlookup, hm, show ¬ k = k2 from fun hh => hk2 hh.symm]

/-- Removal never grows the map. -/
theorem mremove_length (m : List (List Char × ValueEntry)) (k : List Char) :
    (mremove m k).length ≤ m.length := List.length_filter_le _ m

/-- Filtering a list splits its length. -/
theorem length_filter_partition {α : Type} (l : List α) (p : α → Bool) :
    (l.filter p).length + (l.filter (fun x => !p x)).length = l.length := by
  induction l with
  | nil => rfl
  | cons x xs ih => by_cases hp : p x <;> simp [List.filter_cons, hp] <;> omega

/-- Decimal renderings of naturals are never empty. -/
theorem natToCharsAux_length : ∀ (n : Nat) (acc : List Char),
    acc.length ≤ (natToCharsAux n acc).length := by
  intro n
  induction n using Nat.strong_induction_on with
  | _ n ih =>
    intro acc
    unfold natToCharsAux
    split
    · exact le_rfl
    · have h2 := ih (n / 10)
        (Nat.div_lt_self (Nat.pos_of_ne_zero (by assumption)) (by omega))
        (Char.ofNat (48 + n % 10) :: acc)
      simp only [List.length_cons] at h2
      omega

/-- The decimal rendering of a natural number is non-empty. -/
theorem natToChars_ne_nil (n : Nat) : natToChars n ≠ [] := by
  unfold natToChars
  split
  · simp
  · intro h
    have h1 : (1 : Nat) ≤ (natToCharsAux n []).length := by
      unfold natToCharsAux
      split
      · simp_all
      · have h2 := natToCharsAux_length (n / 10) [Char.ofNat (48 + n % 10)]
        simp only [List.length_cons, List.length_nil] at h2
        omega
    rw [h] at h1
    simp at h1

/-- Decompression inverts the payload choice of `compress_if_needed`,
given the gzip round-trip contract. -/
theorem decompress_compress_if_needed (c : Codec)
    (hrt : ∀ v, c.decompress (c.compress v) = v) (value : List Nat)
    (threshold : Nat) :
    decompress_if_needed c (compress_if_needed c value threshold).1
      (compress_if_needed c value threshold).2 = value := by
  unfold compress_if_needed decompress_if_needed
  by_cases h1 : value.length < threshold
  · simp [h1]
  · by_cases h2 : (c.compress value).length < value.length
    · simp [h1, h2, hrt]
    · simp [h1, h2]

/-- A successful SET parse yields a non-empty key and a non-empty value. -/
theorem parse_set_command_ok_shape (input k v : List Char) (s : Nat)
    (h : parse_set_command input = Except.ok (k, v, s)) : k ≠ [] ∧ v ≠ [] := by
  unfold parse_set_command at h
  repeat' split at h
  any_goals simp_all
  all_goals (repeat' split at h)
  all_goals simp_all

/-- Well-formedness of the map contents as maintained by the dispatcher:
every key is non-empty and every payload decompresses to a non-empty byte
string. -/
def MapWf (c : Codec) (m : List (List Char × ValueEntry)) : Prop :=
  ∀ k e, mlookup m k = some e →
    k ≠ [] ∧ decompress_if_needed c e.payload e.compressed ≠ []

/-- Removal preserves map well-formedness. -/
theorem MapWf_mremove (c : Codec) (m : List (List Char × ValueEntry))
    (k : List Char) (h : MapWf c m) : MapWf c (mremove m k) := by
  intro k2 e he
  rw [mlookup_mremove] at he
  by_cases hk : k2 = k
  · simp [hk] at he
  · rw [if_neg hk] at he
    exact h k2 e he

/-- Insertion of a non-empty key with a well-formed payload preserves map
well-formedness. -/
theorem MapWf_minsert (c : Codec) (m : List (List Char × ValueEntry))
    (k : List Char) (v : ValueEntry) (h : MapWf c m) (hk : k ≠ [])
    (hv : decompress_if_needed c v.payload v.compressed ≠ []) :
    MapWf c (minsert m k v) := by
  intro k2 e he
  rw [mlookup_minsert] at he
  by_cases hk2 : k2 = k
  · rw [if_pos hk2] at he
    cases he
    exact ⟨hk2 ▸ hk, hv⟩
  · rw [if_neg hk2] at he
    exact h k2 e he

/-- A decoded well-formed payload is a non-empty string. -/
theorem utf8Decode_wf_ne_nil (l : List Nat) (s : List Char) (hl : l ≠ [])
    (h : utf8Decode l = some s) : s ≠ [] := by
  intro hs
  exact hl (utf8Decode_some_nil l (hs ▸ h))

/-- A trimmed-non-blank string is non-empty. -/
theorem ne_nil_of_rustTrim_ne_nil (s : List Char) (h : rustTrim s ≠ []) : s ≠ [] :=
  fun hs => h (by rw [hs]; rfl)

/-- The store returned by `Store.get` stays well-formed. -/
theorem store_get_wf (c : Codec) (st : Store) (now : Nat) (key : List Char)
    (hwf : MapWf c st.data) : MapWf c (Store.get c st now key).2.data := by
  unfold Store.get
  split
  · split
    · exact MapWf_mremove c st.data key hwf
    · exact hwf
  · exact hwf

/-- The store returned by `Store.delete` stays well-formed. -/
theorem store_delete_wf (c : Codec) (st : Store) (now : Nat) (key : List Char)
    (hwf : MapWf c st.data) : MapWf c (Store.delete st now key).2.data := by
  unfold Store.delete
  split
  · split
    · exact MapWf_mremove c st.data key hwf
    · exact MapWf_mremove c st.data key hwf
  · exact hwf

/-- The store returned by `Store.expires_in` stays well-formed. -/
theorem store_expires_in_wf (c : Codec) (st : Store) (now : Nat) (key : List Char)
    (hwf : MapWf c st.data) : MapWf c (Store.expires_in st now key).2.data := by
  unfold Store.expires_in
  split
  · split
    · split
      · exact hwf
      · exact MapWf_mremove c st.data key hwf
    · exact hwf
  · exact hwf

/-- The store returned by `Store.insert` stays well-formed, given the gzip
round trip, a non-empty key and a non-empty value. -/
theorem store_insert_wf (c : Codec) (st : Store) (now : Nat) (key : List Char)
    (value : List Nat) (seconds : Nat)
    (hrt : ∀ v, c.decompress (c.compress v) = v) (hwf : MapWf c st.data)
    (hk : key ≠ []) (hv : value ≠ []) :
    MapWf c (Store.insert c st now key value seconds).data := by
  unfold Store.insert
  apply MapWf_minsert c st.data key _ hwf hk
  rw [decompress_compress_if_needed c hrt value st.compression_threshold]
  exact hv

/-! ## Claim theorems -/

/-- C7: for every insert of `value_bytes` with threshold
`compression_threshold`: below the threshold the payload is the raw bytes
with `compressed == false`; otherwise the gzip output is stored with
`compressed == true` exactly when strictly shorter than the input, and the
raw bytes with `compressed == false` otherwise. -/
theorem c7_compress_if_needed (c : Codec) (value : List Nat) (threshold : Nat) :
    (value.length < threshold → compress_if_needed c value threshold = (value, false)) ∧
    (threshold ≤ value.length →
      ((c.compress value).length < value.length →
        compress_if_needed c value threshold = (c.compress value, true)) ∧
      (value.length ≤ (c.compress value).length →
        compress_if_needed c value threshold = (value, false))) := by
  refine ⟨fun h => by simp [compress_if_needed, h], fun h => ⟨fun h2 => ?_, fun h2 => ?_⟩⟩
  · simp [compress_if_needed, Nat.not_lt.mpr h, h2]
  · simp [compress_if_needed, Nat.not_lt.mpr h, Nat.not_lt.mpr h2]

/-- Witness for C7 at concrete inputs, in both regimes. -/
theorem c7_witness :
    compress_if_needed idCodec [1, 2] 5 = ([1, 2], false) ∧
    compress_if_needed idCodec [1, 2] 2 = ([1, 2], false) :=
  ⟨(c7_compress_if_needed idCodec [1, 2] 5).1 (by decide),
   ((c7_compress_if_needed idCodec [1, 2] 2).2 (by decide)).2 (by decide)⟩

/-- C6 counterexample: the TTL `18446744073709551615` (u64::MAX) is
reachable from the wire — it parses as an unsigned 64-bit integer — and the
u64 expiry sum wraps: inserting at time 1 with that TTL stores expiry 0,
not `now_seconds() + ttl_seconds = 1 + (2^64 - 1)`. -/
theorem c6_counterexample :
    parseU64 (("18446744073709551615").data) = some (2 ^ 64 - 1) ∧
    (mlookup (Store.insert idCodec ⟨[], 512, none, 250⟩ 1 (("k").data) [1]
      (2 ^ 64 - 1)).data (("k").data)).map ValueEntry.expires_at =
      some (some 0) ∧
    (0 : Nat) ≠ 1 + (2 ^ 64 - 1) := by
  decide

/-- C6 amended: the expiry stored by `insert(key, value, ttl_seconds)` is
the wrapping u64 sum `(now + default_ttl) mod 2^64` when `ttl_seconds == 0`
and a default TTL is configured, absent when `ttl_seconds == 0` with no
default, and `(now + ttl_seconds) mod 2^64` otherwise — equal to the plain
sum `now + ttl_seconds` exactly when that sum does not overflow 64 bits;
moreover `SET k v EX 0` parses to TTL 0, so it stores the entry with no
expiry (or the default TTL when configured). -/
theorem c6_insert_expiry (c : Codec) (st : Store) (now : Nat) (key : List Char)
    (value : List Nat) (t : Nat) (hd : ∀ d, st.default_ttl = some d → 0 < d) :
    ((mlookup (Store.insert c st now key value t).data key).map
        ValueEntry.expires_at =
      some (if t = 0 then
        match st.default_ttl with
        | some d => some ((now + d) % 2 ^ 64)
        | none => none
      else some ((now + t) % 2 ^ 64))) ∧
    (t ≠ 0 → now + t < 2 ^ 64 →
      (mlookup (Store.insert c st now key value t).data key).map
        ValueEntry.expires_at = some (some (now + t))) ∧
    parse_set_command (("SET k v EX 0").data) =
      Except.ok ((("k").data), (("v").data), 0) := by
  have hl : mlookup (Store.insert c st now key value t).data key =
      some ⟨(compress_if_needed c value st.compression_threshold).1,
        st.ttl_deadline now t,
        (compress_if_needed c value st.compression_threshold).2⟩ := by
    unfold Store.insert
    simp [mlookup_minsert]
  refine ⟨?_, ?_, ?_⟩
  · rw [hl]
    simp only [Option.map]
    unfold Store.ttl_deadline
    by_cases ht : t = 0
    · cases hdef : st.default_ttl with
      | none => simp [ht, hdef]
      | some d =>
        have hdp := hd d hdef
        simp [ht, hdef, Option.getD, Nat.pos_iff_ne_zero.mp hdp]
    · simp [ht]
  · intro ht hov
    rw [hl]
    simp only [Option.map]
    unfold Store.ttl_deadline
    simp [ht, Nat.mod_eq_of_lt hov]
    simpa using hov
  · decide

/-- Witness for the amended C6: with no default TTL configured, a TTL of 3
at time 10 (no overflow) produces expiry 13. -/
theorem c6_witness :
    (mlookup (Store.insert idCodec ⟨[], 512, none, 250⟩ 10 (("k").data) [1] 3).data
      (("k").data)).map ValueEntry.expires_at = some (some 13) := by
  have h := (c6_insert_expiry idCodec ⟨[], 512, none, 250⟩ 10 (("k").data) [1] 3
    (fun d hh => by simp at hh)).2.1 (by decide) (by decide)
  simpa using h

/-- C8 counterexample: with the wire-reachable TTL `2^64 − 1` the u64
expiry sum wraps to an already-past instant, and the immediate `get`
(0 seconds elapsed, strictly less than the TTL) returns `None` instead of
the inserted value. -/
theorem c8_counterexample :
    (Store.get idCodec
      (Store.insert idCodec ⟨[], 512, none, 250⟩ 1 (("k").data) [7]
        (2 ^ 64 - 1)) 1 (("k").data)).1 = none ∧
    (1 : Nat) < 1 + (2 ^ 64 - 1) := by
  decide

/-- C8 amended: after `insert(k, v, t)`, a `get(k)` performed before the
TTL has elapsed — provided the u64 expiry sum `now + t` does not overflow —
(or with `t == 0` and no default TTL configured) returns exactly the
inserted bytes and leaves the store unchanged, the store decompressing
whatever it compressed. -/
theorem c8_insert_get_roundtrip (c : Codec) (st : Store) (now now2 : Nat)
    (key : List Char) (value : List Nat) (t : Nat)
    (hrt : ∀ v, c.decompress (c.compress v) = v)
    (ht : (t ≠ 0 ∧ now2 < now + t ∧ now + t < 2 ^ 64) ∨
      (t = 0 ∧ st.default_ttl = none)) :
    Store.get c (Store.insert c st now key value t) now2 key =
      (some value, Store.insert c st now key value t) := by
  have hl : mlookup (Store.insert c st now key value t).data key =
      some ⟨(compress_if_needed c value st.compression_threshold).1,
        st.ttl_deadline now t,
        (compress_if_needed c value st.compression_threshold).2⟩ := by
    unfold Store.insert
    simp [mlookup_minsert]
  have hdead : ∀ x, st.ttl_deadline now t = some x → now2 < x := by
    intro x hx
    unfold Store.ttl_deadline at hx
    rcases ht with ⟨ht1, ht2, ht3⟩ | ⟨ht1, ht2⟩
    · simp [ht1] at hx
      rw [Nat.mod_eq_of_lt (by simpa using ht3)] at hx
      omega
    · simp [ht1, ht2, Option.getD] at hx
  have hexp : (ValueEntry.mk
      (compress_if_needed c value st.compression_threshold).1
      (st.ttl_deadline now t)
      (compress_if_needed c value st.compression_threshold).2).is_expired now2 =
      false := by
    unfold ValueEntry.is_expired
    cases hopt : st.ttl_deadline now t with
    | none => simp
    | some x =>
      have := hdead x hopt
      simp
      omega
  unfold Store.get
  rw [hl]
  simp only [hexp, Bool.false_eq_true, if_false]
  rw [decompress_compress_if_needed c hrt value st.compression_threshold]

/-- Witness for the amended C8: inserting under key `k` with TTL 5 at time
10 (no overflow) and reading at time 14 returns the value. -/
theorem c8_witness :
    Store.get idCodec
      (Store.insert idCodec ⟨[], 512, none, 250⟩ 10 (("k").data) [7, 8] 5) 14
      (("k").data) =
    (some [7, 8],
      Store.insert idCodec ⟨[], 512, none, 250⟩ 10 (("k").data) [7, 8] 5) :=
  c8_insert_get_roundtrip idCodec ⟨[], 512, none, 250⟩ 10 14 (("k").data) [7, 8] 5
    (fun _ => rfl) (Or.inl ⟨by decide, by decide, by decide⟩)

/-- C9: a `get` at a time at or past a present `expires_at` returns `None`
and removes the entry from the map. -/
theorem c9_get_expired_removes (c : Codec) (st : Store) (now : Nat)
    (key : List Char) (e : ValueEntry) (expiry : Nat)
    (hl : mlookup st.data key = some e) (he : e.expires_at = some expiry)
    (hn : expiry ≤ now) :
    (Store.get c st now key).1 = none ∧
      mlookup (Store.get c st now key).2.data key = none := by
  have hexp : e.is_expired now = true := by
    unfold ValueEntry.is_expired
    simp [he, hn]
  unfold Store.get
  rw [hl]
  simp only [hexp, if_true]
  simp [mlookup_mremove]

/-- Witness for C9 on a store holding an entry expired at time 5, read at
time 10. -/
theorem c9_witness :
    (Store.get idCodec ⟨[((("a").data), ⟨[98], some 5, false⟩)], 512, none, 250⟩ 10
      (("a").data)).1 = none ∧
    mlookup (Store.get idCodec
      ⟨[((("a").data), ⟨[98], some 5, false⟩)], 512, none, 250⟩ 10
      (("a").data)).2.data (("a").data) = none :=
  c9_get_expired_removes idCodec
    ⟨[((("a").data), ⟨[98], some 5, false⟩)], 512, none, 250⟩ 10 (("a").data)
    ⟨[98], some 5, false⟩ 5 (by decide) rfl (by decide)

/-- C10: a GET on an entry created by the SET command path (which stores the
UTF-8 encoding of the value string) never takes the invalid-UTF-8 error
branch of `commands::get`, given that gzip decompression inverts the
compression the store applied: at every later read time the command returns
a success response. -/
theorem c10_get_after_set_no_utf8_error (c : Codec) (st : Store)
    (now now2 seconds : Nat) (key value : List Char)
    (hrt : ∀ v, c.decompress (c.compress v) = v) :
    ∃ st2 resp,
      cmd_get c key ((cmd_set c key value st now seconds).1) now2 =
        (st2, Except.ok resp) := by
  unfold cmd_set cmd_get
  simp only []
  have hl : mlookup (Store.insert c st now key (utf8Encode value) seconds).data key =
      some ⟨(compress_if_needed c (utf8Encode value) st.compression_threshold).1,
        st.ttl_deadline now seconds,
        (compress_if_needed c (utf8Encode value) st.compression_threshold).2⟩ := by
    unfold Store.insert
    simp [mlookup_minsert]
  unfold Store.get
  rw [hl]
  cases hexp : (ValueEntry.mk
      (compress_if_needed c (utf8Encode value) st.compression_threshold).1
      (st.ttl_deadline now seconds)
      (compress_if_needed c (utf8Encode value) st.compression_threshold).2).is_expired
      now2 with
  | true =>
    simp only [hexp]
    exact ⟨_, _, rfl⟩
  | false =>
    simp only [hexp, Bool.false_eq_true, if_false]
    rw [decompress_compress_if_needed c hrt (utf8Encode value)
      st.compression_threshold, utf8Decode_utf8Encode]
    exact ⟨_, _, rfl⟩

/-- Witness for C10 at a concrete store, key and value. -/
theorem c10_witness :
    ∃ st2 resp,
      cmd_get idCodec (("k").data)
        ((cmd_set idCodec (("k").data) (("vä").data) ⟨[], 512, none, 250⟩ 10 0).1) 99 =
        (st2, Except.ok resp) :=
  c10_get_after_set_no_utf8_error idCodec ⟨[], 512, none, 250⟩ 10 99 0 (("k").data)
    (("vä").data) (fun _ => rfl)

/-- C5 counterexample: on a store holding one entry whose expiry (5) has
passed at wall-clock time 10, `stats` still reports `keys = 1`, while the
number of keys whose entries are not expired at that time is 0 — `stats`
counts map entries, not live keys. -/
theorem c5_counterexample :
    (Store.stats
      (⟨[((("a").data), ⟨[98], some 5, false⟩)], 512, none, 250⟩ : Store) 0).keys =
      1 ∧
    ((⟨[((("a").data), ⟨[98], some 5, false⟩)], 512, none, 250⟩ : Store).data.filter
      (fun kv => !kv.2.is_expired 10)).length = 0 := by
  decide

/-- C5 amended: `stats()` reports in `keys` the number of entries currently
present in the map — the live count plus any expired entries not yet removed
(only after a `purge_expired` pass does it equal the live count) — together
with the count of compressed entries, the configured compression threshold,
the configured default TTL, the cleanup interval, and the uptime in
fractional seconds since store creation. -/
theorem c5_stats_fields (st : Store) (now : Nat) (uptime : Rat) :
    (Store.stats st uptime).keys =
      (st.data.filter (fun kv => !kv.2.is_expired now)).length +
      (st.data.filter (fun kv => kv.2.is_expired now)).length ∧
    (Store.stats (purge_expired st now) uptime).keys =
      (st.data.filter (fun kv => !kv.2.is_expired now)).length ∧
    (Store.stats st uptime).compressed_keys =
      (st.data.filter (fun kv => kv.2.compressed)).length ∧
    (Store.stats st uptime).compression_threshold = st.compression_threshold ∧
    (Store.stats st uptime).default_ttl_secs = st.default_ttl ∧
    (Store.stats st uptime).cleanup_interval_ms = st.cleanup_interval_ms ∧
    (Store.stats st uptime).uptime_secs = uptime := by
  refine ⟨?_, rfl, rfl, rfl, rfl, rfl, rfl⟩
  have h := length_filter_partition st.data (fun kv => !kv.2.is_expired now)
  simp only [Bool.not_not] at h
  exact h.symm

/-- C3 counterexample: in `SET k v EX 1 2` the tail after the rightmost
`" EX "` is `1 2`, not a single integer token, yet the command is accepted —
the whole remainder becomes the value with TTL 0 and the dispatcher answers
`ok`, not `error:set command invalid`. -/
theorem c3_counterexample :
    parse_set_command (("SET k v EX 1 2").data) =
      Except.ok ((("k").data), (("v EX 1 2").data), 0) ∧
    (dispatcher idCodec (("SET k v EX 1 2").data) ⟨[], 512, none, 250⟩
      ⟨4194304, 30, ("CLOSE").data, ("error:timeout").data,
        ("error:invalid command").data⟩ ⟨0, 0, ("0").data⟩).2 =
      Except.ok (("ok").data) := by
  decide

/-- C3 amended: with the rightmost `" EX "` located in the trimmed
remainder, a tail that is a single token parsing as an unsigned integer
makes the value the remainder up to that `" EX "` (trailing whitespace
trimmed) with the parsed TTL, and a single tail token that does not parse
makes the whole command invalid; but a tail of two or more tokens is NOT
invalid — the `EX` suffix is ignored, the whole remainder is the value and
the TTL is 0. -/
theorem c3_set_ex_parsing (input cmd key rem0 : List Char) (idx : Nat)
    (hsplit : splitnList 3 ' ' input = [cmd, key, rem0])
    (hcmd : cmd = ("SET").data) (hkey : key ≠ [])
    (hrem : rustTrim rem0 ≠ [])
    (hfind : rfindSub (rustTrim rem0) ((" EX ").data) = some idx)
    (hfrag : rustTrim ((rustTrim rem0).drop (idx + 4)) ≠ []) :
    (∀ tok n, splitWhitespace (rustTrim ((rustTrim rem0).drop (idx + 4))) = [tok] →
      parseU64 tok = some n →
      rustTrimEnd ((rustTrim rem0).take idx) ≠ [] →
      parse_set_command input =
        Except.ok (key, rustTrimEnd ((rustTrim rem0).take idx), n)) ∧
    (∀ tok, splitWhitespace (rustTrim ((rustTrim rem0).drop (idx + 4))) = [tok] →
      parseU64 tok = none →
      parse_set_command input =
        Except.error (KeyzError.invalidCommand ("error:set command invalid"))) ∧
    (2 ≤ (splitWhitespace (rustTrim ((rustTrim rem0).drop (idx + 4)))).length →
      parse_set_command input = Except.ok (key, rustTrim rem0, 0)) := by
  have hbase : parse_set_command input =
      (match splitWhitespace (rustTrim ((rustTrim rem0).drop (idx + 4))) with
        | [t] =>
          match parseU64 t with
          | some parsed_seconds =>
            if rustTrimEnd ((rustTrim rem0).take idx) = [] then
              Except.error (KeyzError.invalidCommand ("error:set command invalid"))
            else
              Except.ok (key, rustTrimEnd ((rustTrim rem0).take idx), parsed_seconds)
          | none => Except.error (KeyzError.invalidCommand ("error:set command invalid"))
        | [] => Except.error (KeyzError.invalidCommand ("error:set command invalid"))
        | _ => Except.ok (key, rustTrim rem0, 0)) := by
    simp only [parse_set_command, hsplit, hcmd]
    rw [if_neg (by simp), if_neg hkey, if_neg hrem]
    simp only [hfind]
    rw [if_neg hfrag]
  refine ⟨?_, ?_, ?_⟩
  · intro tok n htok hn hcand
    rw [hbase, htok]
    simp only [hn]
    rw [if_neg hcand]
  · intro tok htok hn
    rw [hbase, htok]
    simp only [hn]
  · intro hlen
    rw [hbase]
    cases hws : splitWhitespace (rustTrim ((rustTrim rem0).drop (idx + 4))) with
    | nil => rw [hws] at hlen; simp at hlen
    | cons a rest =>
      cases rest with
      | nil => rw [hws] at hlen; simp at hlen
      | cons b rest2 => rfl

/-- Witness for the amended C3 on `SET k v EX 5`. -/
theorem c3_witness :
    parse_set_command (("SET k v EX 5").data) =
      Except.ok ((("k").data), (("v").data), 5) := by
  have h := (c3_set_ex_parsing (("SET k v EX 5").data) (("SET").data) (("k").data)
    (("v EX 5").data) 1 (by decide) rfl (by decide) (by decide) (by decide)
    (by decide)).1 (("5").data) 5 (by decide) (by decide) (by decide)
  exact h

/-- C4 counterexample: with `invalid_command_response` configured to `nope`,
an unknown command `NOOP` is answered with the literal
`error:invalid command` produced inside the dispatcher as a success value —
the handler substitution on dispatcher `InvalidCommand` never fires, so the
unknown-command reply is NOT configurable. -/
theorem c4_counterexample :
    handler_step idCodec
      ⟨10, 1, ("CLOSE").data, ("t").data, ("nope").data⟩
      ⟨[], 512, none, 250⟩ ⟨0, 0, ("0").data⟩
      (ReadOutcome.okRead (("NOOP").data)) =
      StepResult.reply (("error:invalid command").data) ⟨[], 512, none, 250⟩ ∧
    (("error:invalid command").data) ≠ (("nope").data) := by
  decide

/-- C4 amended: for every received command that trims non-empty, is not the
close command, and whose name is none of SET, GET, DEL, EXIN, INFO, the
handler replies with the dispatcher literal `error:invalid command`
regardless of the configured `invalid_command_response` (the dispatcher
returns the literal as a success value, so the handler substitution on
dispatcher `InvalidCommand` does not apply). -/
theorem c4_unknown_command_literal (c : Codec) (p : ProtocolConfig) (st : Store)
    (clk : Clock) (command : List Char)
    (hne : rustTrim command ≠ []) (hclose : command ≠ p.close_command)
    (hname : ¬ (splitn2 (rustTrim command)).1 ∈
      [("SET").data, ("GET").data, ("DEL").data, ("EXIN").data, ("INFO").data]) :
    handler_step c p st clk (ReadOutcome.okRead command) =
      StepResult.reply (("error:invalid command").data) st := by
  simp only [List.mem_cons, List.not_mem_nil, or_false, not_or] at hname
  obtain ⟨h1, h2, h3, h4, h5⟩ := hname
  simp only [handler_step, dispatcher, if_neg hne, if_neg hclose, if_neg h5,
    if_neg h1, if_neg (show ¬ ((splitn2 (rustTrim command)).1 = ("GET").data ∨
      (splitn2 (rustTrim command)).1 = ("DEL").data ∨
      (splitn2 (rustTrim command)).1 = ("EXIN").data) by
        push_neg
        exact ⟨h2, h3, h4⟩)]

/-- Witness for the amended C4 on the unknown command `PING`. -/
theorem c4_witness :
    handler_step idCodec ⟨10, 1, ("CLOSE").data, ("t").data, ("x").data⟩
      ⟨[], 512, none, 250⟩ ⟨0, 0, ("0").data⟩
      (ReadOutcome.okRead (("PING").data)) =
      StepResult.reply (("error:invalid command").data) ⟨[], 512, none, 250⟩ :=
  c4_unknown_command_literal idCodec ⟨10, 1, ("CLOSE").data, ("t").data, ("x").data⟩
    ⟨[], 512, none, 250⟩ ⟨0, 0, ("0").data⟩ (("PING").data)
    (by decide) (by decide) (by decide)

/-- C1: `read_message` reads exactly 4 bytes and decodes them as a
big-endian u32 length; a length of 0 or above `max_len` fails with
`InvalidCommand("message length out of bounds")`; otherwise exactly that
many payload bytes are read and decoded as UTF-8; running out of buffered
bytes during either read surfaces the stream condition mapped through
`mapReadErr`, which sends connection-reset, EOF and broken-pipe to
`ClientDisconnected` and any other I/O error to `Io`. -/
theorem c1_read_message_spec (bytes : List Nat) (e : ReadEnd) (max_len : Nat) :
    (mapReadErr ReadEnd.eof = KeyzError.clientDisconnected ∧
      mapReadErr ReadEnd.connReset = KeyzError.clientDisconnected ∧
      mapReadErr ReadEnd.brokenPipe = KeyzError.clientDisconnected ∧
      mapReadErr ReadEnd.otherIo = KeyzError.ioErr) ∧
    (bytes.length < 4 →
      read_message ⟨bytes, e⟩ max_len = Except.error (mapReadErr e)) ∧
    (4 ≤ bytes.length →
      (beDecode (bytes.take 4) = 0 ∨ max_len < beDecode (bytes.take 4) →
        read_message ⟨bytes, e⟩ max_len =
          Except.error (KeyzError.invalidCommand ("message length out of bounds"))) ∧
      (0 < beDecode (bytes.take 4) → beDecode (bytes.take 4) ≤ max_len →
        (bytes.length < 4 + beDecode (bytes.take 4) →
          read_message ⟨bytes, e⟩ max_len = Except.error (mapReadErr e)) ∧
        (4 + beDecode (bytes.take 4) ≤ bytes.length →
          read_message ⟨bytes, e⟩ max_len =
            match utf8Decode ((bytes.drop 4).take (beDecode (bytes.take 4))) with
            | some chars =>
              Except.ok (chars,
                ⟨(bytes.drop 4).drop (beDecode (bytes.take 4)), e⟩)
            | none => Except.error KeyzError.invalidUtf8))) := by
  refine ⟨⟨rfl, rfl, rfl, rfl⟩, ?_, ?_⟩
  · intro h
    simp only [read_message, readExact]
    rw [if_neg (by omega)]
  · intro h4
    constructor
    · intro hout
      simp only [read_message, readExact]
      rw [if_pos (by omega)]
      simp only []
      rw [if_pos hout]
    · intro hpos hbound
      constructor
      · intro hshort
        simp only [read_message, readExact]
        rw [if_pos (by omega)]
        simp only []
        rw [if_neg (by push_neg; omega)]
        rw [if_neg (by simp only [List.length_drop]; omega)]
      · intro hlong
        simp only [read_message, readExact]
        rw [if_pos (by omega)]
        simp only []
        rw [if_neg (by push_neg; omega)]
        rw [if_pos (by simp only [List.length_drop]; omega)]

/-- Witness for C1: a well-formed frame of length 2 carrying `hi` is read
back, and a zero length header is rejected. -/
theorem c1_witness :
    read_message ⟨[0, 0, 0, 2, 104, 105], ReadEnd.eof⟩ 10 =
      Except.ok ((("hi").data), ⟨[], ReadEnd.eof⟩) ∧
    read_message ⟨[0, 0, 0, 0], ReadEnd.eof⟩ 10 =
      Except.error (KeyzError.invalidCommand ("message length out of bounds")) := by
  constructor
  · have h := ((((c1_read_message_spec [0, 0, 0, 2, 104, 105] ReadEnd.eof 10).2.2
      (by decide)).2 (by decide) (by decide)).2 (by decide))
    rw [h]
    decide
  · exact ((c1_read_message_spec [0, 0, 0, 0] ReadEnd.eof 10).2.2 (by decide)).1
      (Or.inl (by decide))

/-- A successful `Store.get` returns the (non-empty) decompressed payload of
a well-formed entry. -/
theorem store_get_some_ne_nil (c : Codec) (st : Store) (now : Nat)
    (key : List Char) (bytes : List Nat) (st3 : Store) (hwf : MapWf c st.data)
    (h : Store.get c st now key = (some bytes, st3)) : bytes ≠ [] := by
  unfold Store.get at h
  cases hl : mlookup st.data key with
  | none => rw [hl] at h; simp at h
  | some entry =>
    rw [hl] at h
    cases hexp : entry.is_expired now with
    | true => simp [hexp] at h
    | false =>
      simp only [hexp, Bool.false_eq_true, if_false, Prod.mk.injEq,
        Option.some.injEq] at h
      exact h.1 ▸ (hwf key entry hl).2

/-- A `Store.delete` that echoes a key echoes a key the well-formed map
held, hence a non-empty one. -/
theorem store_delete_some_ne_nil (st : Store) (now : Nat) (key k2 : List Char)
    (st3 : Store) (c : Codec) (hwf : MapWf c st.data)
    (h : Store.delete st now key = (some k2, st3)) : k2 ≠ [] := by
  unfold Store.delete at h
  cases hl : mlookup st.data key with
  | none => rw [hl] at h; simp at h
  | some entry =>
    rw [hl] at h
    cases hexp : entry.is_expired now with
    | true => simp [hexp] at h
    | false =>
      simp only [hexp, Bool.false_eq_true, if_false, Prod.mk.injEq,
        Option.some.injEq] at h
      exact h.1 ▸ (hwf key entry hl).1

/-- Responses of `commands::get` are non-empty on a well-formed store. -/
theorem cmd_get_resp (c : Codec) (key : List Char) (st : Store) (now : Nat)
    (hwf : MapWf c st.data) :
    ∀ resp, (cmd_get c key st now).2 = Except.ok resp → resp ≠ [] := by
  intro resp h
  unfold cmd_get at h
  cases hget : Store.get c st now key with
  | mk opt st3 =>
    rw [hget] at h
    cases opt with
    | none =>
      simp only [Except.ok.injEq] at h
      exact h ▸ (by decide)
    | some bytes =>
      have hb : bytes ≠ [] := store_get_some_ne_nil c st now key bytes st3 hwf hget
      cases hdec : utf8Decode bytes with
      | none => simp [hdec] at h
      | some s =>
        simp only [hdec, Except.ok.injEq] at h
        exact h ▸ utf8Decode_wf_ne_nil bytes s hb hdec

/-- Responses of `commands::delete` are non-empty on a well-formed store. -/
theorem cmd_delete_resp (c : Codec) (key : List Char) (st : Store) (now : Nat)
    (hwf : MapWf c st.data) :
    ∀ resp, (cmd_delete key st now).2 = Except.ok resp → resp ≠ [] := by
  intro resp h
  unfold cmd_delete at h
  cases hdel : Store.delete st now key with
  | mk opt st3 =>
    rw [hdel] at h
    cases opt with
    | none =>
      simp only [Except.ok.injEq] at h
      exact h ▸ (by decide)
    | some k2 =>
      simp only [Except.ok.injEq] at h
      exact h ▸ store_delete_some_ne_nil st now key k2 st3 c hwf hdel

/-- Responses of `commands::expires_in` are non-empty. -/
theorem cmd_expires_in_resp (key : List Char) (st : Store) (now : Nat) :
    ∀ resp, (cmd_expires_in key st now).2 = Except.ok resp → resp ≠ [] := by
  intro resp h
  unfold cmd_expires_in at h
  cases hexi : Store.expires_in st now key with
  | mk opt st3 =>
    rw [hexi] at h
    cases opt with
    | none =>
      simp only [Except.ok.injEq] at h
      exact h ▸ (by decide)
    | some v =>
      simp only [Except.ok.injEq] at h
      exact h ▸ natToChars_ne_nil v

/-- Responses of `commands::set` are non-empty. -/
theorem cmd_set_resp (c : Codec) (key value : List Char) (st : Store)
    (now seconds : Nat) :
    ∀ resp, (cmd_set c key value st now seconds).2 = Except.ok resp → resp ≠ [] := by
  intro resp h
  unfold cmd_set at h
  simp only [Except.ok.injEq] at h
  exact h ▸ (by decide)

/-- The INFO JSON payload is non-empty. -/
theorem cmd_info_ne_nil (st : Store) (p : ProtocolConfig) (clk : Clock) :
    cmd_info st p clk ≠ [] := by
  unfold cmd_info
  exact List.append_ne_nil_of_right_ne_nil _ (by decide)

/-- Well-formedness of the store component returned by `commands::get`. -/
theorem cmd_get_wf (c : Codec) (key : List Char) (st : Store) (now : Nat)
    (hwf : MapWf c st.data) : MapWf c (cmd_get c key st now).1.data := by
  have h2 := store_get_wf c st now key hwf
  unfold cmd_get
  cases hget : Store.get c st now key with
  | mk opt st3 =>
    rw [hget] at h2
    cases opt with
    | none => exact h2
    | some bytes =>
      cases hdec : utf8Decode bytes with
      | none => simp only [hdec]; exact h2
      | some s => simp only [hdec]; exact h2

/-- Well-formedness of the store component returned by `commands::delete`. -/
theorem cmd_delete_wf (c : Codec) (key : List Char) (st : Store) (now : Nat)
    (hwf : MapWf c st.data) : MapWf c (cmd_delete key st now).1.data := by
  have h2 := store_delete_wf c st now key hwf
  unfold cmd_delete
  cases hdel : Store.delete st now key with
  | mk opt st3 =>
    rw [hdel] at h2
    cases opt with
    | none => exact h2
    | some k2 => exact h2

/-- Well-formedness of the store component returned by
`commands::expires_in`. -/
theorem cmd_expires_in_wf (c : Codec) (key : List Char) (st : Store) (now : Nat)
    (hwf : MapWf c st.data) : MapWf c (cmd_expires_in key st now).1.data := by
  have h2 := store_expires_in_wf c st now key hwf
  unfold cmd_expires_in
  cases hexi : Store.expires_in st now key with
  | mk opt st3 =>
    rw [hexi] at h2
    cases opt with
    | none => exact h2
    | some v => exact h2

/-- Well-formedness of the store component returned by `commands::set`. -/
theorem cmd_set_wf (c : Codec) (key value : List Char) (st : Store)
    (now seconds : Nat) (hrt : ∀ v, c.decompress (c.compress v) = v)
    (hwf : MapWf c st.data) (hk : key ≠ []) (hv : value ≠ []) :
    MapWf c (cmd_set c key value st now seconds).1.data := by
  unfold cmd_set
  exact store_insert_wf c st now key (utf8Encode value) seconds hrt hwf hk
    (utf8Encode_ne_nil value hv)

/-- Every successful dispatcher response is a non-empty string, provided the
store is well-formed. -/
theorem dispatcher_resp_ne_nil (c : Codec) (command : List Char) (st : Store)
    (p : ProtocolConfig) (clk : Clock) (hwf : MapWf c st.data) :
    ∀ resp, (dispatcher c command st p clk).2 = Except.ok resp → resp ≠ [] := by
  intro resp h
  simp only [dispatcher] at h
  split at h
  · simp only [Except.ok.injEq] at h
    exact h ▸ (by decide)
  · split at h
    · split at h
      · split at h
        · simp only [Except.ok.injEq] at h
          exact h ▸ (by decide)
        · simp only [Except.ok.injEq] at h
          exact h ▸ cmd_info_ne_nil st p clk
      · simp only [Except.ok.injEq] at h
        exact h ▸ cmd_info_ne_nil st p clk
    · split at h
      · split at h
        · next kvs hparse =>
          exact cmd_set_resp c kvs.1 kvs.2.1 st clk.now kvs.2.2 resp h
        · simp only [Except.ok.injEq] at h
          exact h ▸ (by decide)
      · split at h
        · split at h
          · split at h
            · simp only [Except.ok.injEq] at h
              exact h ▸ (by decide)
            · split at h
              · exact cmd_get_resp c _ st clk.now hwf resp h
              · split at h
                · exact cmd_delete_resp c _ st clk.now hwf resp h
                · exact cmd_expires_in_resp _ st clk.now resp h
          · simp only [Except.ok.injEq] at h
            exact h ▸ (by decide)
        · simp only [Except.ok.injEq] at h
          exact h ▸ (by decide)

/-- The dispatcher preserves store well-formedness, given the gzip round
trip. -/
theorem dispatcher_wf (c : Codec) (command : List Char) (st : Store)
    (p : ProtocolConfig) (clk : Clock)
    (hrt : ∀ v, c.decompress (c.compress v) = v) (hwf : MapWf c st.data) :
    MapWf c (dispatcher c command st p clk).1.data := by
  simp only [dispatcher]
  split
  · exact hwf
  · split
    · split
      · split
        · exact hwf
        · exact hwf
      · exact hwf
    · split
      · split
        · next kvs hparse =>
          have hshape := parse_set_command_ok_shape _ kvs.1 kvs.2.1 kvs.2.2
            (by rw [hparse])
          exact cmd_set_wf c kvs.1 kvs.2.1 st clk.now kvs.2.2 hrt hwf
            hshape.1 hshape.2
        · exact hwf
      · split
        · split
          · split
            · exact hwf
            · split
              · exact cmd_get_wf c _ st clk.now hwf
              · split
                · exact cmd_delete_wf c _ st clk.now hwf
                · exact cmd_expires_in_wf c _ st clk.now hwf
          · exact hwf
        · exact hwf

/-- Every message the handler loop replies with is non-empty, given a
validated configuration and a well-formed store. -/
theorem handler_step_reply_ne_nil (c : Codec) (p : ProtocolConfig) (st : Store)
    (clk : Clock) (r : ReadOutcome) (msg : List Char) (st2 : Store)
    (hinv : p.invalid_command_response ≠ []) (hwf : MapWf c st.data)
    (h : handler_step c p st clk r = StepResult.reply msg st2) : msg ≠ [] := by
  unfold handler_step at h
  cases r with
  | timedOut => simp at h
  | errRead e =>
    cases e <;> simp at h <;> exact h.1 ▸ hinv
  | okRead command =>
    by_cases h1 : rustTrim command = []
    · simp only [if_pos h1] at h
      simp at h
      exact h.1 ▸ hinv
    · by_cases h2 : command = p.close_command
      · simp only [if_neg h1, if_pos h2] at h
        simp at h
      · simp only [if_neg h1, if_neg h2] at h
        cases hd : dispatcher c command st p clk with
        | mk st3 r2 =>
          rw [hd] at h
          cases r2 with
          | ok resp =>
            simp at h
            have hne := dispatcher_resp_ne_nil c command st p clk hwf resp
              (by rw [hd])
            exact h.1 ▸ hne
          | error err =>
            cases err <;> simp at h <;> exact h.1 ▸ hinv

/-- The closing reply of the handler loop is the non-empty literal
`Closing connection`. -/
theorem handler_step_closing_ne_nil (c : Codec) (p : ProtocolConfig) (st : Store)
    (clk : Clock) (r : ReadOutcome) (msg : List Char)
    (h : handler_step c p st clk r = StepResult.closing msg) : msg ≠ [] := by
  unfold handler_step at h
  cases r with
  | timedOut => simp at h
  | errRead e => cases e <;> simp at h
  | okRead command =>
    by_cases h1 : rustTrim command = []
    · simp only [if_pos h1] at h
      simp at h
    · by_cases h2 : command = p.close_command
      · simp only [if_neg h1, if_pos h2] at h
        simp only [StepResult.closing.injEq] at h
        exact h ▸ (by decide)
      · simp only [if_neg h1, if_neg h2] at h
        cases hd : dispatcher c command st p clk with
        | mk st3 r2 =>
          rw [hd] at h
          cases r2 with
          | ok resp => simp at h
          | error err => cases err <;> simp at h

/-- The timeout reply of the handler loop is the configured (non-blank)
`timeout_response`. -/
theorem handler_step_timeout_ne_nil (c : Codec) (p : ProtocolConfig) (st : Store)
    (clk : Clock) (r : ReadOutcome) (msg : List Char)
    (hto : p.timeout_response ≠ [])
    (h : handler_step c p st clk r = StepResult.timeoutClose msg) : msg ≠ [] := by
  unfold handler_step at h
  cases r with
  | timedOut =>
    simp only [StepResult.timeoutClose.injEq] at h
    exact h ▸ hto
  | errRead e => cases e <;> simp at h
  | okRead command =>
    by_cases h1 : rustTrim command = []
    · simp only [if_pos h1] at h
      simp at h
    · by_cases h2 : command = p.close_command
      · simp only [if_neg h1, if_pos h2] at h
        simp at h
      · simp only [if_neg h1, if_neg h2] at h
        cases hd : dispatcher c command st p clk with
        | mk st3 r2 =>
          rw [hd] at h
          cases r2 with
          | ok resp => simp at h
          | error err => cases err <;> simp at h

/-- The handler loop preserves store well-formedness whenever it loops. -/
theorem handler_step_reply_wf (c : Codec) (p : ProtocolConfig) (st : Store)
    (clk : Clock) (r : ReadOutcome) (msg : List Char) (st2 : Store)
    (hrt : ∀ v, c.decompress (c.compress v) = v) (hwf : MapWf c st.data)
    (h : handler_step c p st clk r = StepResult.reply msg st2) :
    MapWf c st2.data := by
  unfold handler_step at h
  cases r with
  | timedOut => simp at h
  | errRead e =>
    cases e <;> simp at h <;> exact h.2 ▸ hwf
  | okRead command =>
    by_cases h1 : rustTrim command = []
    · simp only [if_pos h1] at h
      simp at h
      exact h.2 ▸ hwf
    · by_cases h2 : command = p.close_command
      · simp only [if_neg h1, if_pos h2] at h
        simp at h
      · simp only [if_neg h1, if_neg h2] at h
        have hdwf := dispatcher_wf c command st p clk hrt hwf
        cases hd : dispatcher c command st p clk with
        | mk st3 r2 =>
          rw [hd] at h hdwf
          cases r2 with
          | ok resp =>
            simp at h
            exact h.2 ▸ hdwf
          | error err =>
            cases err <;> simp at h <;> exact h.2 ▸ hdwf

/-- Big-endian decoding of the four header bytes of `n < 2^32` recovers
`n`. -/
theorem beDecode_beBytes (n : Nat) (h : n < 2 ^ 32) : beDecode (beBytes n) = n := by
  unfold beDecode beBytes
  simp only [List.foldl]
  omega

/-- C2: `write_message` emits the 4-byte big-endian encoding of the message
length followed by the message bytes, with the same error mapping as reads;
and the server never emits a frame of length 0: on a validated configuration
and a well-formed store, every message the connection handler writes
(dispatcher response, `invalid_command_response`, `Closing connection`,
`timeout_response`) is a non-empty string, whose UTF-8 encoding is
non-empty, so the emitted length header is non-zero; the handler preserves
that well-formedness and the empty store satisfies it, so this holds along
the whole connection. -/
theorem c2_write_message_spec :
    (∀ (w : WriteSink) (message : List Nat),
      ((beBytes message.length ++ message).length ≤ w.room →
        write_message w message =
          Except.ok ⟨w.room - (beBytes message.length ++ message).length, w.ending,
            w.written ++ (beBytes message.length ++ message)⟩) ∧
      (w.room < (beBytes message.length ++ message).length →
        write_message w message = Except.error (mapReadErr w.ending))) ∧
    (∀ n, n ≠ 0 → n < 2 ^ 32 → beDecode (beBytes n) ≠ 0) ∧
    (∀ msg : List Char, msg ≠ [] → (utf8Encode msg).length ≠ 0) ∧
    (∀ c : Codec, MapWf c []) ∧
    (∀ (c : Codec) (p : ProtocolConfig) (st : Store) (clk : Clock)
      (r : ReadOutcome) (msg : List Char) (st2 : Store),
      ProtocolConfig.validate p = true → MapWf c st.data →
      (handler_step c p st clk r = StepResult.reply msg st2 → msg ≠ []) ∧
      (handler_step c p st clk r = StepResult.closing msg → msg ≠ []) ∧
      (handler_step c p st clk r = StepResult.timeoutClose msg → msg ≠ [])) ∧
    (∀ (c : Codec) (p : ProtocolConfig) (st : Store) (clk : Clock)
      (r : ReadOutcome) (msg : List Char) (st2 : Store),
      (∀ v, c.decompress (c.compress v) = v) → MapWf c st.data →
      handler_step c p st clk r = StepResult.reply msg st2 → MapWf c st2.data) := by
  refine ⟨?_, ?_, ?_, ?_, ?_, ?_⟩
  · intro w message
    constructor
    · intro h
      unfold write_message writeAll
      rw [if_pos h]
    · intro h
      unfold write_message writeAll
      rw [if_neg (by omega)]
  · intro n h0 h32
    rw [beDecode_beBytes n h32]
    exact h0
  · intro msg h hlen
    exact utf8Encode_ne_nil msg h (List.length_eq_zero.mp hlen)
  · intro c k e he
    simp [mlookup] at he
  · intro c p st clk r msg st2 hval hwf
    have hval2 : rustTrim p.timeout_response ≠ [] ∧
        rustTrim p.invalid_command_response ≠ [] := by
      simp only [ProtocolConfig.validate, Bool.and_eq_true, decide_eq_true_eq] at hval
      exact ⟨hval.1.2, hval.2⟩
    have hto : p.timeout_response ≠ [] := ne_nil_of_rustTrim_ne_nil _ hval2.1
    have hinv : p.invalid_command_response ≠ [] := ne_nil_of_rustTrim_ne_nil _ hval2.2
    exact ⟨handler_step_reply_ne_nil c p st clk r msg st2 hinv hwf,
      handler_step_closing_ne_nil c p st clk r msg,
      handler_step_timeout_ne_nil c p st clk r msg hto⟩
  · intro c p st clk r msg st2 hrt hwf h
    exact handler_step_reply_wf c p st clk r msg st2 hrt hwf h

/-- Witness for C2: a one-byte message is framed as `[0,0,0,1]` plus the
byte, and the unknown-command reply frame has a non-zero length header. -/
theorem c2_witness :
    write_message ⟨10, ReadEnd.eof, []⟩ [65] =
      Except.ok ⟨5, ReadEnd.eof, [0, 0, 0, 1, 65]⟩ ∧
    beDecode (beBytes (utf8Encode (("error:invalid command").data)).length) ≠ 0 := by
  constructor
  · have h := (c2_write_message_spec.1 ⟨10, ReadEnd.eof, []⟩ [65]).1 (by decide)
    rw [h]
    decide
  · exact c2_write_message_spec.2.1 _ (by decide) (by decide)

end Keyz
